import Mathlib

/-!
Shallow embedding of the AntiGravity crypto-arbitrage bot core
(`config.py`, `arbitrage_detector.py`, `trade_simulator.py`,
`price_fetcher.py`) over exact rational arithmetic.  Python floats are
modelled as `ℚ`; Python `round(x, n)` is modelled as exact half-even
rounding at `n` decimal places; Python dicts are modelled as association
lists in insertion order with distinct keys.
-/

namespace AntiGravity

/-! ## Configuration constants (`config.py`, `TradingConfig`) -/

/-- `TradingConfig.sim_capital_usd = 1000.0` -/
def simCapitalUsd : ℚ := 1000

/-- `TradingConfig.estimated_fee_pct = 0.2` -/
def estimatedFeePct : ℚ := 1/5

/-- `TradingConfig.arbitrage_threshold_pct = 0.8` -/
def arbitrageThresholdPct : ℚ := 4/5

/-- `TradingConfig.max_retries = 3` -/
def maxRetriesDefault : ℕ := 3

/-- `TradingConfig.exchanges` -/
def exchangesList : List String := ["binance", "coinbase", "kraken", "kucoin", "bybit"]

/-- `BotMode.CURRENT = BotMode.SIMULATION = "simulation"` -/
def botModeCurrent : String := "simulation"

/-! ## Python `round` modelled exactly

Python `round` uses banker's rounding (round half to even).  We model it
exactly on `ℚ`. -/

/-- Round a rational to the nearest integer, ties to even. -/
def roundHalfEven (q : ℚ) : ℤ :=
  if q - ⌊q⌋ < 1/2 then ⌊q⌋
  else if 1/2 < q - ⌊q⌋ then ⌊q⌋ + 1
  else if ⌊q⌋ % 2 = 0 then ⌊q⌋ else ⌊q⌋ + 1

/-- Python `round(q, n)`: round to `n` decimal places, ties to even. -/
def pyRound (q : ℚ) (n : ℕ) : ℚ :=
  ((roundHalfEven (q * 10 ^ n) : ℚ)) / 10 ^ n

/-- Adding an even integer commutes with half-even rounding. -/
theorem roundHalfEven_add_int (q : ℚ) (k : ℤ) (hk : k % 2 = 0) :
    roundHalfEven (q + k) = roundHalfEven q + k := by
  unfold roundHalfEven
  rw [Int.floor_add_int]
  have hfrac : q + (k : ℚ) - ((⌊q⌋ + k : ℤ) : ℚ) = q - ⌊q⌋ := by push_cast; ring
  rw [hfrac]
  have hmod : (⌊q⌋ + k) % 2 = ⌊q⌋ % 2 := by omega
  rw [hmod]
  split
  · rfl
  · split
    · ring
    · split
      · rfl
      · ring

/-! ## `arbitrage_detector.py` -/

/-- `ArbitrageOpportunity` dataclass. -/
structure ArbitrageOpportunity where
  coin : String
  buy_exchange : String
  sell_exchange : String
  buy_price : ℚ
  sell_price : ℚ
  gross_spread_pct : ℚ
  net_spread_pct : ℚ
  estimated_profit_usd : ℚ
  is_viable : Bool
  deriving Repr, DecidableEq

/-- One step of Python `min(d, key=d.get)` over a dict's items: keep the
current item unless the new one is strictly smaller (first minimum wins). -/
def minStep (acc y : String × ℚ) : String × ℚ :=
  if y.2 < acc.2 then y else acc

/-- One step of Python `max(d, key=d.get)`: keep the current item unless
the new one is strictly larger (first maximum wins). -/
def maxStep (acc y : String × ℚ) : String × ℚ :=
  if acc.2 < y.2 then y else acc

/-- `ArbitrageDetector.find_opportunity`.  The price map is an
association list in dict insertion order. -/
def findOpportunity (coin_id : String) (exchange_prices : List (String × ℚ)) :
    Option ArbitrageOpportunity :=
  match exchange_prices with
  | [] => none
  | [_] => none
  | x :: y :: ys =>
    let buy := (y :: ys).foldl minStep x
    let sell := (y :: ys).foldl maxStep x
    if buy.1 = sell.1 then none
    else
      let gross_spread_pct := ((sell.2 - buy.2) / buy.2) * 100
      let total_fee_pct := estimatedFeePct * 2
      let net_spread_pct := gross_spread_pct - total_fee_pct
      let estimated_profit_usd := (net_spread_pct / 100) * simCapitalUsd
      some {
        coin := coin_id
        buy_exchange := buy.1
        sell_exchange := sell.1
        buy_price := buy.2
        sell_price := sell.2
        gross_spread_pct := pyRound gross_spread_pct 4
        net_spread_pct := pyRound net_spread_pct 4
        estimated_profit_usd := pyRound estimated_profit_usd 2
        is_viable := decide (net_spread_pct ≥ arbitrageThresholdPct) }

/-! ### Properties of the Python `min`/`max` selection folds -/

theorem foldl_minStep_mem (xs : List (String × ℚ)) (a : String × ℚ) :
    xs.foldl minStep a = a ∨ xs.foldl minStep a ∈ xs := by
  induction xs generalizing a with
  | nil => left; rfl
  | cons y ys ih =>
    simp only [List.foldl_cons]
    rcases ih (minStep a y) with h | h
    · rw [h]
      unfold minStep
      split
      · right; exact List.mem_cons_self _ _
      · left; rfl
    · right; exact List.mem_cons_of_mem _ h

theorem foldl_minStep_le (xs : List (String × ℚ)) (a : String × ℚ) :
    (xs.foldl minStep a).2 ≤ a.2 ∧ ∀ y ∈ xs, (xs.foldl minStep a).2 ≤ y.2 := by
  induction xs generalizing a with
  | nil => exact ⟨le_refl _, by simp⟩
  | cons y ys ih =>
    simp only [List.foldl_cons]
    obtain ⟨h1, h2⟩ := ih (minStep a y)
    have hy : (minStep a y).2 ≤ a.2 ∧ (minStep a y).2 ≤ y.2 := by
      unfold minStep
      split
      · exact ⟨le_of_lt (by assumption), le_refl _⟩
      · exact ⟨le_refl _, le_of_not_lt (by assumption)⟩
    refine ⟨le_trans h1 hy.1, ?_⟩
    intro z hz
    rcases List.mem_cons.mp hz with rfl | hz
    · exact le_trans h1 hy.2
    · exact h2 z hz

theorem foldl_maxStep_mem (xs : List (String × ℚ)) (a : String × ℚ) :
    xs.foldl maxStep a = a ∨ xs.foldl maxStep a ∈ xs := by
  induction xs generalizing a with
  | nil => left; rfl
  | cons y ys ih =>
    simp only [List.foldl_cons]
    rcases ih (maxStep a y) with h | h
    · rw [h]
      unfold maxStep
      split
      · right; exact List.mem_cons_self _ _
      · left; rfl
    · right; exact List.mem_cons_of_mem _ h

theorem foldl_maxStep_ge (xs : List (String × ℚ)) (a : String × ℚ) :
    a.2 ≤ (xs.foldl maxStep a).2 ∧ ∀ y ∈ xs, y.2 ≤ (xs.foldl maxStep a).2 := by
  induction xs generalizing a with
  | nil => exact ⟨le_refl _, by simp⟩
  | cons y ys ih =>
    simp only [List.foldl_cons]
    obtain ⟨h1, h2⟩ := ih (maxStep a y)
    have hy : a.2 ≤ (maxStep a y).2 ∧ y.2 ≤ (maxStep a y).2 := by
      unfold maxStep
      split
      · exact ⟨le_of_lt (by assumption), le_refl _⟩
      · exact ⟨le_refl _, le_of_not_lt (by assumption)⟩
    refine ⟨le_trans hy.1 h1, ?_⟩
    intro z hz
    rcases List.mem_cons.mp hz with rfl | hz
    · exact le_trans hy.2 h1
    · exact h2 z hz

/-- The Python `min` fold picks the FIRST pair attaining the minimum value
(ties broken by insertion order): it is the first list element whose value
is `≤` the fold's value. -/
theorem foldl_minStep_first (xs : List (String × ℚ)) (a : String × ℚ) :
    (a :: xs).find? (fun p => decide (p.2 ≤ (xs.foldl minStep a).2)) =
      some (xs.foldl minStep a) := by
  induction xs generalizing a with
  | nil =>
    simp [List.find?]
  | cons y ys ih =>
    simp only [List.foldl_cons]
    by_cases hy : y.2 < a.2
    · have hstep : minStep a y = y := by unfold minStep; simp [hy]
      simp only [hstep]
      have hr := (foldl_minStep_le ys y).1
      have hna : ¬ (a.2 ≤ (ys.foldl minStep y).2) := by
        intro h
        exact absurd (lt_of_le_of_lt (le_trans h hr) hy) (lt_irrefl _)
      rw [List.find?_cons_of_neg _ (by simpa using hna)]
      exact ih y
    · have hstep : minStep a y = a := by unfold minStep; simp [hy]
      simp only [hstep]
      have hr := (foldl_minStep_le ys a).1
      have hay : a.2 ≤ y.2 := le_of_not_lt hy
      by_cases hpa : a.2 ≤ (ys.foldl minStep a).2
      · have heq : (ys.foldl minStep a).2 = a.2 := le_antisymm hr hpa
        have hfind := ih a
        rw [List.find?_cons_of_pos _ (by simpa using hpa)] at hfind
        have hra : ys.foldl minStep a = a := by injection hfind with h; exact h.symm
        rw [hra] at *
        rw [List.find?_cons_of_pos _ (by simp)]
      · have hfind := ih a
        rw [List.find?_cons_of_neg _ (by simpa using hpa)] at hfind
        have hny : ¬ (y.2 ≤ (ys.foldl minStep a).2) := by
          intro h
          exact hpa (le_trans hay h)
        rw [List.find?_cons_of_neg _ (by simpa using hpa),
            List.find?_cons_of_neg _ (by simpa using hny)]
        exact hfind

/-- The Python `max` fold picks the FIRST pair attaining the maximum value
(ties broken by insertion order). -/
theorem foldl_maxStep_first (xs : List (String × ℚ)) (a : String × ℚ) :
    (a :: xs).find? (fun p => decide ((xs.foldl maxStep a).2 ≤ p.2)) =
      some (xs.foldl maxStep a) := by
  induction xs generalizing a with
  | nil =>
    simp [List.find?]
  | cons y ys ih =>
    simp only [List.foldl_cons]
    by_cases hy : a.2 < y.2
    · have hstep : maxStep a y = y := by unfold maxStep; simp [hy]
      simp only [hstep]
      have hr := (foldl_maxStep_ge ys y).1
      have hna : ¬ ((ys.foldl maxStep y).2 ≤ a.2) := by
        intro h
        exact absurd (lt_of_lt_of_le hy (le_trans hr h)) (lt_irrefl _)
      rw [List.find?_cons_of_neg _ (by simpa using hna)]
      exact ih y
    · have hstep : maxStep a y = a := by unfold maxStep; simp [hy]
      simp only [hstep]
      have hr := (foldl_maxStep_ge ys a).1
      have hay : y.2 ≤ a.2 := le_of_not_lt hy
      by_cases hpa : (ys.foldl maxStep a).2 ≤ a.2
      · have heq : (ys.foldl maxStep a).2 = a.2 := le_antisymm hpa hr
        have hfind := ih a
        rw [List.find?_cons_of_pos _ (by simpa using hpa)] at hfind
        have hra : ys.foldl maxStep a = a := by injection hfind with h; exact h.symm
        rw [hra] at *
        rw [List.find?_cons_of_pos _ (by simp)]
      · have hfind := ih a
        rw [List.find?_cons_of_neg _ (by simpa using hpa)] at hfind
        have hny : ¬ ((ys.foldl maxStep a).2 ≤ y.2) := by
          intro h
          exact hpa (le_trans h hay)
        rw [List.find?_cons_of_neg _ (by simpa using hpa),
            List.find?_cons_of_neg _ (by simpa using hny)]
        exact hfind

/-- If no later value is strictly smaller, the `min` fold keeps its start. -/
theorem foldl_minStep_const (xs : List (String × ℚ)) (a : String × ℚ)
    (h : ∀ y ∈ xs, ¬ (y.2 < a.2)) : xs.foldl minStep a = a := by
  induction xs with
  | nil => rfl
  | cons y ys ih =>
    simp only [List.foldl_cons]
    have hstep : minStep a y = a := by
      unfold minStep
      simp [h y (List.mem_cons_self _ _)]
    simp only [hstep]
    exact ih (fun z hz => h z (List.mem_cons_of_mem _ hz))

/-- If no later value is strictly larger, the `max` fold keeps its start. -/
theorem foldl_maxStep_const (xs : List (String × ℚ)) (a : String × ℚ)
    (h : ∀ y ∈ xs, ¬ (a.2 < y.2)) : xs.foldl maxStep a = a := by
  induction xs with
  | nil => rfl
  | cons y ys ih =>
    simp only [List.foldl_cons]
    have hstep : maxStep a y = a := by
      unfold maxStep
      simp [h y (List.mem_cons_self _ _)]
    simp only [hstep]
    exact ih (fun z hz => h z (List.mem_cons_of_mem _ hz))

/-- Unfolding of `findOpportunity` on a map with at least two entries. -/
theorem findOpportunity_eq (coin_id : String) (x y : String × ℚ) (ys : List (String × ℚ)) :
    findOpportunity coin_id (x :: y :: ys) =
      (let buy := (y :: ys).foldl minStep x
       let sell := (y :: ys).foldl maxStep x
       if buy.1 = sell.1 then none
       else some {
         coin := coin_id
         buy_exchange := buy.1
         sell_exchange := sell.1
         buy_price := buy.2
         sell_price := sell.2
         gross_spread_pct := pyRound (((sell.2 - buy.2) / buy.2) * 100) 4
         net_spread_pct := pyRound ((((sell.2 - buy.2) / buy.2) * 100) - estimatedFeePct * 2) 4
         estimated_profit_usd :=
           pyRound ((((((sell.2 - buy.2) / buy.2) * 100) - estimatedFeePct * 2) / 100) *
             simCapitalUsd) 2
         is_viable :=
           decide (((((sell.2 - buy.2) / buy.2) * 100) - estimatedFeePct * 2) ≥
             arbitrageThresholdPct) }) := rfl

/-- Rounding to 4 decimals commutes with subtracting the round-trip fee
`2 * 0.2 = 0.4`, an exact multiple of `10 ^ (-4)` with even numerator. -/
theorem pyRound_sub_fee (q : ℚ) :
    pyRound (q - estimatedFeePct * 2) 4 = pyRound q 4 - estimatedFeePct * 2 := by
  unfold pyRound estimatedFeePct
  have h1 : (q - 1/5 * 2) * 10 ^ 4 = q * 10 ^ 4 + ((-4000 : ℤ) : ℚ) := by push_cast; ring
  rw [h1, roundHalfEven_add_int _ _ (by decide)]
  push_cast
  ring

/-- C3: for a price map with at least 2 entries whose keys are distinct
(as in a Python dict), `find_opportunity` returns an opportunity whose
`buy_price` is the minimum of the values and whose `sell_price` is the
maximum, ties broken by first-seen key order (expressed via `List.find?`),
hence `buy_price ≤ sell_price` and distinct exchanges; for fewer than two
entries, or when all prices are equal (argmin and argmax keys coincide),
it returns `none`. -/
theorem find_opportunity_min_max (coin : String) (l : List (String × ℚ))
    (hnd : (l.map Prod.fst).Nodup) :
    (l.length < 2 → findOpportunity coin l = none) ∧
    ((∀ p ∈ l, ∀ q ∈ l, p.2 = q.2) → findOpportunity coin l = none) ∧
    (2 ≤ l.length → (∃ p ∈ l, ∃ q ∈ l, p.2 ≠ q.2) →
      ∃ opp, findOpportunity coin l = some opp ∧
        opp.buy_exchange ≠ opp.sell_exchange ∧
        (∀ p ∈ l, opp.buy_price ≤ p.2 ∧ p.2 ≤ opp.sell_price) ∧
        l.find? (fun p => decide (p.2 ≤ opp.buy_price)) =
          some (opp.buy_exchange, opp.buy_price) ∧
        l.find? (fun p => decide (opp.sell_price ≤ p.2)) =
          some (opp.sell_exchange, opp.sell_price) ∧
        opp.buy_price ≤ opp.sell_price) := by
  match l with
  | [] =>
    refine ⟨fun _ => rfl, fun _ => rfl, fun h _ => ?_⟩
    simp at h
  | [x] =>
    refine ⟨fun _ => rfl, fun _ => rfl, fun h _ => ?_⟩
    simp at h
  | x :: y :: ys =>
    have hbm : (y :: ys).foldl minStep x ∈ x :: y :: ys := by
      rcases foldl_minStep_mem (y :: ys) x with h | h
      · rw [h]; exact List.mem_cons_self _ _
      · exact List.mem_cons_of_mem _ h
    have hsm : (y :: ys).foldl maxStep x ∈ x :: y :: ys := by
      rcases foldl_maxStep_mem (y :: ys) x with h | h
      · rw [h]; exact List.mem_cons_self _ _
      · exact List.mem_cons_of_mem _ h
    have hble : ∀ p ∈ x :: y :: ys, ((y :: ys).foldl minStep x).2 ≤ p.2 := by
      intro p hp
      obtain ⟨h1, h2⟩ := foldl_minStep_le (y :: ys) x
      rcases List.mem_cons.mp hp with rfl | hp
      · exact h1
      · exact h2 p hp
    have hsge : ∀ p ∈ x :: y :: ys, p.2 ≤ ((y :: ys).foldl maxStep x).2 := by
      intro p hp
      obtain ⟨h1, h2⟩ := foldl_maxStep_ge (y :: ys) x
      rcases List.mem_cons.mp hp with rfl | hp
      · exact h1
      · exact h2 p hp
    refine ⟨fun h => ?_, fun hall => ?_, fun _ hex => ?_⟩
    · simp only [List.length_cons] at h; omega
    · have hbp : (y :: ys).foldl minStep x = x := by
        apply foldl_minStep_const
        intro z hz
        rw [hall z (List.mem_cons_of_mem _ hz) x (List.mem_cons_self _ _)]
        exact lt_irrefl _
      have hsp : (y :: ys).foldl maxStep x = x := by
        apply foldl_maxStep_const
        intro z hz
        rw [hall z (List.mem_cons_of_mem _ hz) x (List.mem_cons_self _ _)]
        exact lt_irrefl _
      rw [findOpportunity_eq]
      simp [hbp, hsp]
    · obtain ⟨p, hp, q, hq, hne⟩ := hex
      have hkey : ¬ ((y :: ys).foldl minStep x).1 = ((y :: ys).foldl maxStep x).1 := by
        intro hk
        have heqpair := List.inj_on_of_nodup_map hnd hbm hsm hk
        have hpq : p.2 = q.2 := by
          have h1 := hble p hp
          have h2 := hsge p hp
          have h3 := hble q hq
          have h4 := hsge q hq
          rw [heqpair] at h1 h3
          have hpv : p.2 = ((y :: ys).foldl maxStep x).2 := le_antisymm h2 h1
          have hqv : q.2 = ((y :: ys).foldl maxStep x).2 := le_antisymm h4 h3
          rw [hpv, hqv]
        exact hne hpq
      simp only [findOpportunity_eq, if_neg hkey]
      refine ⟨_, rfl, hkey, fun p hp => ⟨hble p hp, hsge p hp⟩, ?_, ?_,
        le_trans (hble x (List.mem_cons_self _ _)) (hsge x (List.mem_cons_self _ _))⟩
      · exact foldl_minStep_first (y :: ys) x
      · exact foldl_maxStep_first (y :: ys) x

/-- Witness for C3 at the concrete map
`{"binance": 67000, "coinbase": 69000}`. -/
theorem find_opportunity_min_max_witness :
    ((["binance", "coinbase"] : List String).Nodup) ∧
    (∃ opp, findOpportunity "bitcoin" [("binance", 67000), ("coinbase", 69000)] = some opp ∧
        opp.buy_exchange ≠ opp.sell_exchange ∧
        (∀ p ∈ ([("binance", (67000 : ℚ)), ("coinbase", 69000)] : List (String × ℚ)),
          opp.buy_price ≤ p.2 ∧ p.2 ≤ opp.sell_price) ∧
        opp.buy_price ≤ opp.sell_price) := by
  have h := find_opportunity_min_max "bitcoin" [("binance", 67000), ("coinbase", 69000)]
    (by decide)
  obtain ⟨opp, h1, h2, h3, _, _, h6⟩ := h.2.2 (by decide)
    ⟨("binance", 67000), by decide, ("coinbase", 69000), by decide, by decide⟩
  exact ⟨by decide, opp, h1, h2, h3, h6⟩

/-- C4 (amended): for every opportunity produced by `find_opportunity`,
`is_viable` equals the comparison of the EXACT (pre-rounding) net spread,
recomputed from the stored buy/sell prices, against the configured
threshold, boundary inclusive.  The stored `net_spread_pct` field is that
value rounded to 4 decimals, so a stored field equal to the threshold does
not imply viability. -/
theorem find_opportunity_viable_iff (coin : String) (l : List (String × ℚ))
    (opp : ArbitrageOpportunity) (h : findOpportunity coin l = some opp) :
    (opp.is_viable = true ↔
      (opp.sell_price - opp.buy_price) / opp.buy_price * 100 - estimatedFeePct * 2 ≥
        arbitrageThresholdPct) ∧
    opp.net_spread_pct =
      pyRound ((opp.sell_price - opp.buy_price) / opp.buy_price * 100 - estimatedFeePct * 2) 4 := by
  match l with
  | [] => exact absurd h (by simp [findOpportunity])
  | [x] => exact absurd h (by simp [findOpportunity])
  | x :: y :: ys =>
    rw [findOpportunity_eq] at h
    simp only at h
    split at h
    · exact absurd h (by simp)
    · injection h with h
      subst h
      exact ⟨by simp, rfl⟩

/-- Witness for C4 (amended) at `{"binance": 67000, "coinbase": 69000}`:
the opportunity is viable and the exact net spread is above threshold. -/
theorem find_opportunity_viable_iff_witness :
    ∃ opp, findOpportunity "bitcoin" [("binance", 67000), ("coinbase", 69000)] = some opp ∧
      opp.is_viable = true ∧
      (opp.sell_price - opp.buy_price) / opp.buy_price * 100 - estimatedFeePct * 2 ≥
        arbitrageThresholdPct := by
  have h := find_opportunity_viable_iff "bitcoin"
    [("binance", 67000), ("coinbase", 69000)] _ rfl
  refine ⟨_, rfl, ?_, ?_⟩
  · norm_num [findOpportunity, minStep, maxStep, estimatedFeePct, arbitrageThresholdPct]
  · exact h.1.mp (by
      norm_num [findOpportunity, minStep, maxStep, estimatedFeePct, arbitrageThresholdPct])

/-- Counterexample to C4 as stated: at the price map
`{"binance": 100000, "coinbase": 101199.97}` the exact net spread is
`0.79997 < 0.8`, so `is_viable = false`, yet the stored (4-decimal rounded)
`net_spread_pct` field equals the configured threshold `0.8`. -/
theorem find_opportunity_viable_iff_cex :
    ∃ opp,
      findOpportunity "bitcoin" [("binance", 100000), ("coinbase", 10119997/100)] = some opp ∧
      opp.net_spread_pct = arbitrageThresholdPct ∧
      opp.is_viable = false := by
  have h : findOpportunity "bitcoin" [("binance", 100000), ("coinbase", 10119997/100)] =
      some { coin := "bitcoin", buy_exchange := "binance", sell_exchange := "coinbase",
             buy_price := 100000, sell_price := 10119997/100,
             gross_spread_pct := 6/5, net_spread_pct := 4/5, estimated_profit_usd := 8,
             is_viable := false } := by
    norm_num [findOpportunity, minStep, maxStep, estimatedFeePct, arbitrageThresholdPct,
      simCapitalUsd, pyRound, roundHalfEven]
    intro hcontra
    exact absurd hcontra (by decide)
  exact ⟨_, h, by norm_num [arbitrageThresholdPct], rfl⟩

/-- C5: for every opportunity produced by `find_opportunity`, the stored
fields satisfy `net_spread_pct = gross_spread_pct - 2 * fee_pct` exactly
(rounding to 4 decimals commutes with subtracting the fee `0.4`), and the
stored gross spread is `(sell_price - buy_price)/buy_price * 100` rounded
to 4 decimals. -/
theorem find_opportunity_net_spread_eq (coin : String) (l : List (String × ℚ))
    (opp : ArbitrageOpportunity) (h : findOpportunity coin l = some opp) :
    opp.net_spread_pct = opp.gross_spread_pct - 2 * estimatedFeePct ∧
    opp.gross_spread_pct = pyRound ((opp.sell_price - opp.buy_price) / opp.buy_price * 100) 4 := by
  match l with
  | [] => exact absurd h (by simp [findOpportunity])
  | [x] => exact absurd h (by simp [findOpportunity])
  | x :: y :: ys =>
    rw [findOpportunity_eq] at h
    simp only at h
    split at h
    · exact absurd h (by simp)
    · injection h with h
      subst h
      constructor
      · show pyRound (_ - estimatedFeePct * 2) 4 = _
        rw [pyRound_sub_fee]
        ring
      · rfl

/-- Witness for C5 at `{"binance": 67000, "coinbase": 69000}`:
evaluates the stored fields concretely. -/
theorem find_opportunity_net_spread_eq_witness :
    ∃ opp, findOpportunity "bitcoin" [("binance", 67000), ("coinbase", 69000)] = some opp ∧
      opp.net_spread_pct = opp.gross_spread_pct - 2 * estimatedFeePct ∧
      opp.net_spread_pct = 25851/10000 ∧ opp.gross_spread_pct = 29851/10000 := by
  refine ⟨_, rfl, ?_, ?_, ?_⟩
  · exact (find_opportunity_net_spread_eq "bitcoin"
      [("binance", 67000), ("coinbase", 69000)] _ rfl).1
  · norm_num [findOpportunity, minStep, maxStep, estimatedFeePct, pyRound, roundHalfEven]
  · norm_num [findOpportunity, minStep, maxStep, estimatedFeePct, pyRound, roundHalfEven]

/-! ## `sentiment_analyzer.py` (collaborator interface only) -/

/-- `SentimentResult` dataclass. -/
structure SentimentResult where
  coin : String
  score : ℚ
  subjectivity : ℚ
  tweet_count : ℕ
  label : String
  trending : Bool
  deriving Repr, DecidableEq

/-! ## `trade_simulator.py` -/

/-- `SimulatedTrade` dataclass. -/
structure SimulatedTrade where
  timestamp : String
  coin : String
  buy_exchange : String
  sell_exchange : String
  buy_price : ℚ
  sell_price : ℚ
  capital_used : ℚ
  gross_profit_usd : ℚ
  fees_paid_usd : ℚ
  net_profit_usd : ℚ
  net_profit_pct : ℚ
  sentiment_score : ℚ
  sentiment_label : String
  risk_multiplier : ℚ
  mode : String
  deriving Repr, DecidableEq

/-- The mutable state of a `TradeSimulator`: virtual capital, the initial
capital recorded at construction, and the in-memory trade history. -/
structure SimState where
  capital : ℚ
  initial_capital : ℚ
  trade_history : List SimulatedTrade
  deriving Repr, DecidableEq

/-- Python `sum(t.net_profit_usd for t in history)`. -/
def historySum (l : List SimulatedTrade) : ℚ :=
  l.foldl (fun a t => a + t.net_profit_usd) 0

/-- `TradeSimulator._sentiment_to_risk`. -/
def sentimentToRisk (sent : SentimentResult) : ℚ :=
  let multiplier : ℚ :=
    if sent.score ≥ 1/2 then 3/2
    else if sent.score ≥ 1/5 then 6/5
    else if sent.score ≥ -(1/5) then 1
    else if sent.score ≥ -(1/2) then 7/10
    else 3/10
  if sent.trending then multiplier * (11/10) else multiplier

/-- The deployed capital computed in `execute_simulation`:
`capital_used = max(10.0, min(capital * 0.80, capital * risk_multiplier * 0.5))`. -/
def capitalUsed (capital risk_multiplier : ℚ) : ℚ :=
  max 10 (min (capital * (8/10)) (capital * risk_multiplier * (1/2)))

/-- `gross_revenue = units * sell_price` with `units = capital_used / buy_price`. -/
def grossRevenue (capital_used buy_price sell_price : ℚ) : ℚ :=
  (capital_used / buy_price) * sell_price

/-- The exact (pre-rounding) net profit of a settled simulated trade. -/
def exactNetProfit (capital risk_multiplier buy_price sell_price : ℚ) : ℚ :=
  let capital_used := capitalUsed capital risk_multiplier
  let gross_revenue := grossRevenue capital_used buy_price sell_price
  (gross_revenue - capital_used) -
    (capital_used * (estimatedFeePct / 100) + gross_revenue * (estimatedFeePct / 100))

/-- `TradeSimulator.execute_simulation`.  The wall-clock timestamp of the
trade is passed in as `ts`.  Returns the optional settled trade and the
updated simulator state. -/
def executeSimulation (s : SimState) (opportunity : ArbitrageOpportunity)
    (sentiment : SentimentResult) (ts : String) : Option SimulatedTrade × SimState :=
  if opportunity.is_viable = false then (none, s)
  else if s.capital ≤ 0 then (none, s)
  else
    let risk_multiplier := sentimentToRisk sentiment
    let capital_used := capitalUsed s.capital risk_multiplier
    let gross_revenue := grossRevenue capital_used opportunity.buy_price opportunity.sell_price
    let gross_profit := gross_revenue - capital_used
    let fee_buy := capital_used * (estimatedFeePct / 100)
    let fee_sell := gross_revenue * (estimatedFeePct / 100)
    let total_fees := fee_buy + fee_sell
    let net_profit := gross_profit - total_fees
    let net_profit_pct := (net_profit / capital_used) * 100
    let trade : SimulatedTrade := {
      timestamp := ts
      coin := opportunity.coin
      buy_exchange := opportunity.buy_exchange
      sell_exchange := opportunity.sell_exchange
      buy_price := opportunity.buy_price
      sell_price := opportunity.sell_price
      capital_used := pyRound capital_used 2
      gross_profit_usd := pyRound gross_profit 2
      fees_paid_usd := pyRound total_fees 2
      net_profit_usd := pyRound net_profit 2
      net_profit_pct := pyRound net_profit_pct 4
      sentiment_score := sentiment.score
      sentiment_label := sentiment.label
      risk_multiplier := pyRound risk_multiplier 3
      mode := botModeCurrent }
    (some trade,
      { capital := s.capital + net_profit
        initial_capital := s.initial_capital
        trade_history := s.trade_history ++ [trade] })

/-! ### Persistence (`_load_existing_trades` / `__init__`)

The persisted trade-history store is modelled as either a missing file,
a file whose bytes are not valid JSON, or a parsed JSON value.  Python
`json.load` output is modelled by `JValue`; construction failure
(an uncaught exception) is modelled by `Option.none`. -/

/-- A parsed JSON value. -/
inductive JValue where
  | null : JValue
  | bool (b : Bool) : JValue
  | num (q : ℚ) : JValue
  | str (s : String) : JValue
  | arr (elems : List JValue) : JValue
  | obj (fields : List (String × JValue)) : JValue

/-- Content of the persisted trade-history file. -/
inductive StoreContent where
  | missing : StoreContent
  | notJson : StoreContent
  | json (v : JValue) : StoreContent

/-- The field names of the `SimulatedTrade` dataclass, in declaration
order; `SimulatedTrade(**t)` requires exactly these keys. -/
def tradeFieldNames : List String :=
  ["timestamp", "coin", "buy_exchange", "sell_exchange", "buy_price", "sell_price",
   "capital_used", "gross_profit_usd", "fees_paid_usd", "net_profit_usd",
   "net_profit_pct", "sentiment_score", "sentiment_label", "risk_multiplier", "mode"]

/-- Extract a JSON string. -/
def jStr : Option JValue → Option String
  | some (.str s) => some s
  | _ => none

/-- Extract a JSON number. -/
def jNum : Option JValue → Option ℚ
  | some (.num q) => some q
  | _ => none

/-- Reconstruct one `SimulatedTrade` from a JSON element, modelling
`SimulatedTrade(**t)`: the element must be an object carrying exactly the
dataclass field names, with well-typed values.  `none` models a `TypeError`
raised during reconstruction (or later during the capital sum). -/
def decodeTrade (v : JValue) : Option SimulatedTrade :=
  match v with
  | .obj kvs =>
    let keys := kvs.map Prod.fst
    if tradeFieldNames.all (fun k => keys.contains k) &&
        keys.all (fun k => tradeFieldNames.contains k) then
      do
        let timestamp ← jStr (kvs.lookup "timestamp")
        let coin ← jStr (kvs.lookup "coin")
        let buy_exchange ← jStr (kvs.lookup "buy_exchange")
        let sell_exchange ← jStr (kvs.lookup "sell_exchange")
        let buy_price ← jNum (kvs.lookup "buy_price")
        let sell_price ← jNum (kvs.lookup "sell_price")
        let capital_used ← jNum (kvs.lookup "capital_used")
        let gross_profit_usd ← jNum (kvs.lookup "gross_profit_usd")
        let fees_paid_usd ← jNum (kvs.lookup "fees_paid_usd")
        let net_profit_usd ← jNum (kvs.lookup "net_profit_usd")
        let net_profit_pct ← jNum (kvs.lookup "net_profit_pct")
        let sentiment_score ← jNum (kvs.lookup "sentiment_score")
        let sentiment_label ← jStr (kvs.lookup "sentiment_label")
        let risk_multiplier ← jNum (kvs.lookup "risk_multiplier")
        let mode ← jStr (kvs.lookup "mode")
        pure { timestamp, coin, buy_exchange, sell_exchange, buy_price, sell_price,
               capital_used, gross_profit_usd, fees_paid_usd, net_profit_usd,
               net_profit_pct, sentiment_score, sentiment_label, risk_multiplier, mode }
    else none
  | _ => none

/-- `for t in trades_data: self.trade_history.append(SimulatedTrade(**t))`,
following Python iteration semantics on the parsed JSON value: a list
iterates its elements, a dict its keys, a string its characters; numbers,
booleans and `None` are not iterable.  `none` models an uncaught exception. -/
def loadTrades (v : JValue) : Option (List SimulatedTrade) :=
  match v with
  | .arr elems => elems.mapM decodeTrade
  | .obj kvs => if kvs.isEmpty then some [] else none
  | .str s => if s.isEmpty then some [] else none
  | _ => none

/-- `self.capital = initial_capital or TRADING.sim_capital_usd`: a falsy
argument (absent or zero) is replaced by the configured default. -/
def resolveInitialCapital (arg : Option ℚ) : ℚ :=
  match arg with
  | none => simCapitalUsd
  | some x => if x = 0 then simCapitalUsd else x

/-- `TradeSimulator.__init__` followed by `_load_existing_trades`:
missing file or invalid JSON is swallowed (fresh start); otherwise the
history is reconstructed and, when non-empty, the capital is recomputed
as `initial_capital + Σ net_profit_usd`.  `none` models a constructor
that raises. -/
def mkSimulator (arg : Option ℚ) (store : StoreContent) : Option SimState :=
  let cap := resolveInitialCapital arg
  match store with
  | .missing => some ⟨cap, cap, []⟩
  | .notJson => some ⟨cap, cap, []⟩
  | .json v =>
    match loadTrades v with
    | none => none
    | some [] => some ⟨cap, cap, []⟩
    | some (t :: ts) => some ⟨cap + historySum (t :: ts), cap, t :: ts⟩

/-! ### Concrete fixtures used in witnesses and counterexamples -/

/-- A neutral, non-trending sentiment (score `0.0`). -/
def neutralSentiment : SentimentResult :=
  { coin := "bitcoin", score := 0, subjectivity := 0, tweet_count := 0,
    label := "NEUTRAL", trending := false }

/-- The opportunity `find_opportunity` produces on
`{"binance": 3, "coinbase": 4}` (a wide, viable spread). -/
def oppSmallGap : ArbitrageOpportunity :=
  { coin := "bitcoin", buy_exchange := "binance", sell_exchange := "coinbase",
    buy_price := 3, sell_price := 4, gross_spread_pct := 333333/10000,
    net_spread_pct := 329333/10000, estimated_profit_usd := 32933/100, is_viable := true }

theorem findOpportunity_small :
    findOpportunity "bitcoin" [("binance", 3), ("coinbase", 4)] = some oppSmallGap := by
  norm_num [findOpportunity, minStep, maxStep, oppSmallGap, estimatedFeePct,
    arbitrageThresholdPct, simCapitalUsd, pyRound, roundHalfEven]
  intro hcontra
  exact absurd hcontra (by decide)

/-- The trade settled from `oppSmallGap` with neutral sentiment and
capital 1000. -/
def tradeSmall : SimulatedTrade :=
  { timestamp := "t", coin := "bitcoin", buy_exchange := "binance",
    sell_exchange := "coinbase", buy_price := 3, sell_price := 4, capital_used := 500,
    gross_profit_usd := 16667/100, fees_paid_usd := 233/100, net_profit_usd := 16433/100,
    net_profit_pct := 328667/10000, sentiment_score := 0, sentiment_label := "NEUTRAL",
    risk_multiplier := 1, mode := "simulation" }

theorem executeSimulation_small :
    executeSimulation ⟨1000, 1000, []⟩ oppSmallGap neutralSentiment "t" =
      (some tradeSmall, ⟨3493/3, 1000, [tradeSmall]⟩) := by
  norm_num [executeSimulation, sentimentToRisk, capitalUsed, grossRevenue,
    neutralSentiment, oppSmallGap, tradeSmall, estimatedFeePct, botModeCurrent,
    pyRound, roundHalfEven]

/-! ### C9 : rejection path of `execute_simulation` -/

/-- C9: calling `execute_simulation` with a non-viable opportunity or with
non-positive capital returns `None`, appends nothing, and leaves the whole
simulator state (capital included) unchanged. -/
theorem execute_simulation_rejected (s : SimState) (opp : ArbitrageOpportunity)
    (sent : SentimentResult) (ts : String)
    (h : opp.is_viable = false ∨ s.capital ≤ 0) :
    executeSimulation s opp sent ts = (none, s) := by
  rcases h with h | h
  · simp [executeSimulation, h]
  · by_cases hv : opp.is_viable = false
    · simp [executeSimulation, hv]
    · simp [executeSimulation, hv, h]

/-- The non-viable opportunity from the spec scenario
`{binance: 67800, coinbase: 68200}` (net spread `0.19 < 0.8`). -/
def oppNotViable : ArbitrageOpportunity :=
  { coin := "bitcoin", buy_exchange := "binance", sell_exchange := "coinbase",
    buy_price := 67800, sell_price := 68200, gross_spread_pct := 59/100,
    net_spread_pct := 19/100, estimated_profit_usd := 19/10, is_viable := false }

/-- Witness for C9 at a concrete state and non-viable opportunity. -/
theorem execute_simulation_rejected_witness :
    executeSimulation ⟨1000, 1000, []⟩ oppNotViable neutralSentiment "t" =
      (none, ⟨1000, 1000, []⟩) :=
  execute_simulation_rejected _ _ _ _ (Or.inl rfl)

/-! ### C1 : the capital ledger invariant -/

/-- C1 (amended): after construction with rehydration the ledger invariant
`capital = initial_capital + Σ net_profit_usd` holds exactly; a settled
`execute_simulation` call appends one record and adds the EXACT net profit
to the capital, while the appended record stores that profit rounded to 2
decimals — so after settling, the invariant holds only up to the
accumulated rounding error. -/
theorem capital_ledger_reconciliation :
    (∀ arg store s, mkSimulator arg store = some s →
      s.capital = s.initial_capital + historySum s.trade_history) ∧
    (∀ s opp sent ts tr s2, executeSimulation s opp sent ts = (some tr, s2) →
      s2.initial_capital = s.initial_capital ∧
      s2.trade_history = s.trade_history ++ [tr] ∧
      s2.capital = s.capital +
        exactNetProfit s.capital (sentimentToRisk sent) opp.buy_price opp.sell_price ∧
      tr.net_profit_usd = pyRound
        (exactNetProfit s.capital (sentimentToRisk sent) opp.buy_price opp.sell_price) 2) := by
  constructor
  · intro arg store s h
    cases store with
    | missing =>
      simp only [mkSimulator] at h
      injection h with h
      subst h
      simp [historySum]
    | notJson =>
      simp only [mkSimulator] at h
      injection h with h
      subst h
      simp [historySum]
    | json v =>
      simp only [mkSimulator] at h
      cases hl : loadTrades v with
      | none => rw [hl] at h; exact absurd h (by simp)
      | some trades =>
        rw [hl] at h
        cases trades with
        | nil =>
          injection h with h
          subst h
          simp [historySum]
        | cons t ts =>
          injection h with h
          subst h
          rfl
  · intro s opp sent ts tr s2 h
    simp only [executeSimulation] at h
    split at h
    · exact absurd h (by simp)
    · split at h
      · exact absurd h (by simp)
      · injection h with h1 h2
        injection h1 with h1
        subst h1
        subst h2
        exact ⟨rfl, rfl, rfl, rfl⟩

/-- Witness for C1 (amended): the freshly constructed ledger satisfies the
reconciliation invariant. -/
theorem capital_ledger_reconciliation_witness :
    ∃ s, mkSimulator none .missing = some s ∧
      s.capital = s.initial_capital + historySum s.trade_history :=
  ⟨_, rfl, capital_ledger_reconciliation.1 none .missing _ rfl⟩

/-- Counterexample to C1 as stated: from the reachable fresh state with
capital 1000, settling the viable `{binance: 3, coinbase: 4}` opportunity
under neutral sentiment yields capital `1000 + 493/3` while the stored
history sums to `1000 + 164.33`; the ledger invariant fails after the
settle because `net_profit_usd` is rounded to cents. -/
theorem capital_ledger_reconciliation_cex :
    mkSimulator none .missing = some ⟨1000, 1000, []⟩ ∧
    ∃ opp tr s2,
      findOpportunity "bitcoin" [("binance", 3), ("coinbase", 4)] = some opp ∧
      executeSimulation ⟨1000, 1000, []⟩ opp neutralSentiment "t" = (some tr, s2) ∧
      s2.capital ≠ s2.initial_capital + historySum s2.trade_history := by
  refine ⟨rfl, oppSmallGap, tradeSmall, ⟨3493/3, 1000, [tradeSmall]⟩,
    findOpportunity_small, executeSimulation_small, ?_⟩
  norm_num [historySum, tradeSmall]

/-! ### C2 : position sizing bounds -/

/-- C2 (amended): whenever `execute_simulation` settles a trade, the
computed `capital_used = max(10, min(0.8 * capital, capital * mult * 0.5))`
satisfies `10 ≤ capital_used ≤ max(10, 0.8 * capital)`; the upper bound
`0.8 * capital` of the claim holds whenever `capital ≥ 12.5` (so that
`0.8 * capital ≥ 10`), but the `$10` floor overrides the 80% cap for
smaller capital.  The settled record stores `capital_used` rounded to
2 decimals. -/
theorem capital_used_bounds (s : SimState) (opp : ArbitrageOpportunity)
    (sent : SentimentResult) (ts : String) (tr : SimulatedTrade) (s2 : SimState)
    (h : executeSimulation s opp sent ts = (some tr, s2)) :
    10 ≤ capitalUsed s.capital (sentimentToRisk sent) ∧
    capitalUsed s.capital (sentimentToRisk sent) ≤ max 10 (s.capital * (8/10)) ∧
    (25/2 ≤ s.capital →
      capitalUsed s.capital (sentimentToRisk sent) ≤ s.capital * (8/10)) ∧
    tr.capital_used = pyRound (capitalUsed s.capital (sentimentToRisk sent)) 2 := by
  refine ⟨le_max_left _ _, ?_, ?_, ?_⟩
  · exact max_le_max (le_refl 10) (min_le_left _ _)
  · intro hc
    apply max_le
    · linarith
    · exact min_le_left _ _
  · simp only [executeSimulation] at h
    split at h
    · exact absurd h (by simp)
    · split at h
      · exact absurd h (by simp)
      · injection h with h1 h2
        injection h1 with h1
        subst h1
        rfl

/-- Witness for C2 (amended): the settled trade of `executeSimulation_small`. -/
theorem capital_used_bounds_witness :
    10 ≤ capitalUsed 1000 (sentimentToRisk neutralSentiment) ∧
    capitalUsed 1000 (sentimentToRisk neutralSentiment) ≤ max 10 (1000 * (8/10)) ∧
    ((25/2 : ℚ) ≤ 1000 →
      capitalUsed 1000 (sentimentToRisk neutralSentiment) ≤ 1000 * (8/10)) ∧
    tradeSmall.capital_used = pyRound (capitalUsed 1000 (sentimentToRisk neutralSentiment)) 2 :=
  capital_used_bounds ⟨1000, 1000, []⟩ oppSmallGap neutralSentiment "t" tradeSmall
    ⟨3493/3, 1000, [tradeSmall]⟩ executeSimulation_small

/-- Counterexample to C2 as stated: with (reachable) capital `12`, a
settling call computes `capital_used = max(10, min(9.6, 6)) = 10`, which
EXCEEDS `0.8 * capital = 9.6`: the `$10` floor breaks the 80% reserve
bound for small capital. -/
theorem capital_used_bounds_cex :
    mkSimulator (some 12) .missing = some ⟨12, 12, []⟩ ∧
    ((executeSimulation ⟨12, 12, []⟩ oppSmallGap neutralSentiment "t").1.isSome = true) ∧
    capitalUsed 12 (sentimentToRisk neutralSentiment) = 10 ∧
    ¬ (capitalUsed 12 (sentimentToRisk neutralSentiment) ≤ (8/10) * 12) := by
  refine ⟨?_, ?_, ?_, ?_⟩
  · norm_num [mkSimulator, resolveInitialCapital]
  · rfl
  · norm_num [capitalUsed, sentimentToRisk, neutralSentiment]
  · norm_num [capitalUsed, sentimentToRisk, neutralSentiment]

/-! ### C8 : tolerance of a corrupt persisted store -/

/-- C8 (amended): construction never fails when the persisted store is
missing or not parseable as JSON — both are treated as empty history with
the configured capital — and succeeds on any store whose JSON content
reconstructs into a list of well-formed trade records.  (A JSON-parseable
store whose elements are not objects with exactly the trade fields makes
construction raise; see the counterexample.) -/
theorem construction_tolerates_corrupt_store :
    (∀ arg, mkSimulator arg .missing =
      some ⟨resolveInitialCapital arg, resolveInitialCapital arg, []⟩) ∧
    (∀ arg, mkSimulator arg .notJson =
      some ⟨resolveInitialCapital arg, resolveInitialCapital arg, []⟩) ∧
    (∀ arg v trades, loadTrades v = some trades →
      (mkSimulator arg (.json v)).isSome = true) := by
  refine ⟨fun arg => rfl, fun arg => rfl, fun arg v trades h => ?_⟩
  simp only [mkSimulator, h]
  cases trades <;> rfl

/-- Witness for C8 (amended): a fresh store and an empty JSON array both
construct successfully. -/
theorem construction_tolerates_corrupt_store_witness :
    mkSimulator none .missing = some ⟨1000, 1000, []⟩ ∧
    (mkSimulator none (.json (.arr []))).isSome = true := by
  refine ⟨?_, construction_tolerates_corrupt_store.2.2 none (.arr []) [] rfl⟩
  have h := construction_tolerates_corrupt_store.1 none
  simpa [resolveInitialCapital, simCapitalUsd] using h

/-- Counterexample to C8 as stated: the store content `[[]]` is valid JSON
(so `json.load` succeeds and `JSONDecodeError` is not raised), but
`SimulatedTrade(**[])` raises `TypeError`, which `_load_existing_trades`
does not catch: construction fails. -/
theorem construction_tolerates_corrupt_store_cex :
    mkSimulator none (.json (.arr [.arr []])) = none := rfl

/-! ### C10 : `get_performance_summary` never raises -/

/-- The value returned by `get_performance_summary`: either the
message-only dictionary (empty history) or the statistics dictionary. -/
inductive PerformanceSummary where
  | message (text : String) : PerformanceSummary
  | stats (total_trades winning_trades losing_trades : ℕ)
      (win_rate_pct initial_capital current_capital total_profit_usd
        total_return_pct avg_profit_per_trade best_trade worst_trade : ℚ) :
      PerformanceSummary

/-- `TradeSimulator.get_performance_summary`.  `none` models a raised
`ZeroDivisionError` (the only way the function could fail: dividing by
`len(trade_history)` or by `initial_capital`). -/
def getPerformanceSummary (s : SimState) : Option PerformanceSummary :=
  match s.trade_history with
  | [] => some (.message "Sin trades registrados aún.")
  | t :: ts =>
    if s.initial_capital = 0 then none
    else
      let hist := t :: ts
      let total_profit := historySum hist
      let wins := hist.filter (fun tr => decide (0 < tr.net_profit_usd))
      let losses := hist.filter (fun tr => decide (tr.net_profit_usd ≤ 0))
      some (.stats hist.length wins.length losses.length
        (pyRound ((wins.length : ℚ) / (hist.length : ℚ) * 100) 1)
        s.initial_capital
        (pyRound s.capital 2)
        (pyRound total_profit 2)
        (pyRound ((s.capital - s.initial_capital) / s.initial_capital * 100) 2)
        (pyRound (total_profit / (hist.length : ℚ)) 2)
        ((ts.foldl (fun a b => if a.net_profit_usd < b.net_profit_usd then b else a)
          t).net_profit_usd)
        ((ts.foldl (fun a b => if b.net_profit_usd < a.net_profit_usd then b else a)
          t).net_profit_usd))

/-- The reachable simulator states: those produced by construction
(with rehydration) and closed under `execute_simulation`. -/
inductive Reachable : SimState → Prop
  | construct (arg : Option ℚ) (store : StoreContent) (s : SimState) :
      mkSimulator arg store = some s → Reachable s
  | step (s : SimState) (opp : ArbitrageOpportunity) (sent : SentimentResult)
      (ts : String) : Reachable s → Reachable (executeSimulation s opp sent ts).2

theorem executeSimulation_initial (s : SimState) (opp : ArbitrageOpportunity)
    (sent : SentimentResult) (ts : String) :
    ((executeSimulation s opp sent ts).2).initial_capital = s.initial_capital := by
  unfold executeSimulation
  split
  · rfl
  · split
    · rfl
    · rfl

theorem mkSimulator_initial (arg : Option ℚ) (store : StoreContent) (s : SimState)
    (h : mkSimulator arg store = some s) :
    s.initial_capital = resolveInitialCapital arg := by
  cases store with
  | missing => simp only [mkSimulator] at h; injection h with h; subst h; rfl
  | notJson => simp only [mkSimulator] at h; injection h with h; subst h; rfl
  | json v =>
    simp only [mkSimulator] at h
    cases hl : loadTrades v with
    | none => rw [hl] at h; exact absurd h (by simp)
    | some trades =>
      rw [hl] at h
      cases trades with
      | nil => injection h with h; subst h; rfl
      | cons t ts => injection h with h; subst h; rfl

theorem resolveInitialCapital_ne_zero (arg : Option ℚ) :
    resolveInitialCapital arg ≠ 0 := by
  cases arg with
  | none => norm_num [resolveInitialCapital, simCapitalUsd]
  | some x =>
    simp only [resolveInitialCapital]
    split
    · norm_num [simCapitalUsd]
    · assumption

theorem reachable_initial_ne_zero (s : SimState) (h : Reachable s) :
    s.initial_capital ≠ 0 := by
  induction h with
  | construct arg store s hmk =>
    rw [mkSimulator_initial arg store s hmk]
    exact resolveInitialCapital_ne_zero arg
  | step s opp sent ts _ ih =>
    rw [executeSimulation_initial]
    exact ih

/-- C10: for every reachable simulator state, `get_performance_summary`
never raises: on an empty history it returns the message-only dictionary,
and otherwise all divisors are non-zero — the trade count is positive and
`initial_capital` is never zero because the constructor replaces a falsy
initial-capital argument with the configured default. -/
theorem get_performance_summary_safe :
    (∀ s, Reachable s → (getPerformanceSummary s).isSome = true) ∧
    (∀ s, s.trade_history = [] →
      getPerformanceSummary s = some (.message "Sin trades registrados aún.")) ∧
    (∀ store s, mkSimulator (some 0) store = some s →
      s.initial_capital = simCapitalUsd) := by
  refine ⟨?_, ?_, ?_⟩
  · intro s hs
    cases hh : s.trade_history with
    | nil => simp [getPerformanceSummary, hh]
    | cons t ts =>
      simp only [getPerformanceSummary, hh]
      rw [if_neg (reachable_initial_ne_zero s hs)]
      rfl
  · intro s hh
    simp [getPerformanceSummary, hh]
  · intro store s h
    rw [mkSimulator_initial _ _ _ h]
    rfl

/-- Witness for C10 at the freshly constructed state. -/
theorem get_performance_summary_safe_witness :
    (getPerformanceSummary ⟨1000, 1000, []⟩).isSome = true :=
  get_performance_summary_safe.1 ⟨1000, 1000, []⟩
    (Reachable.construct none .missing _ rfl)

/-! ## `price_fetcher.py` -/

/-- `_exponential_backoff(attempt, base_wait) = base_wait * 2 ** attempt`. -/
def exponentialBackoff (attempt : ℕ) (base_wait : ℕ) : ℕ :=
  base_wait * 2 ^ attempt

/-- The outcome of one outbound HTTP attempt inside `_safe_get`:
a parsed-JSON success, an HTTP 429 response, another HTTP error status
(`raise_for_status`), or a network-level request error. -/
inductive FetchOutcome where
  | success (payload : JValue) : FetchOutcome
  | rateLimited : FetchOutcome
  | httpError : FetchOutcome
  | networkError : FetchOutcome

/-- The retry loop of `PriceFetcher._safe_get`, parameterised by the
sequence of per-attempt outcomes `o`.  `m` is `max_retries`, `k` the
remaining attempts, `n` the current attempt index (`n = m - k`).  Returns
the final result together with the list of back-off sleeps performed, in
order.  A 429 sleeps `15 * 2 ^ attempt` (even on the final attempt);
other errors sleep `5 * 2 ^ attempt` only when another attempt remains. -/
def safeGetRun (o : ℕ → FetchOutcome) (m : ℕ) : ℕ → ℕ → Option JValue × List ℕ
  | 0, _ => (none, [])
  | k + 1, n =>
    match o n with
    | .success v => (some v, [])
    | .rateLimited =>
      let p := safeGetRun o m k (n + 1)
      (p.1, exponentialBackoff n 15 :: p.2)
    | .httpError =>
      let p := safeGetRun o m k (n + 1)
      if n < m - 1 then (p.1, exponentialBackoff n 5 :: p.2) else p
    | .networkError =>
      let p := safeGetRun o m k (n + 1)
      if n < m - 1 then (p.1, exponentialBackoff n 5 :: p.2) else p

/-- `PriceFetcher._safe_get` with `max_retries = m`: run at most `m`
attempts starting at attempt 0. -/
def safeGet (o : ℕ → FetchOutcome) (m : ℕ) : Option JValue × List ℕ :=
  safeGetRun o m m 0

/-- The sleep contributed by attempt `n` (out of `m`) when that attempt
fails: 429 backs off with base 15 always; other errors back off with base
5 only when a retry remains. -/
def sleepOfAttempt (o : ℕ → FetchOutcome) (m n : ℕ) : Option ℕ :=
  match o n with
  | .success _ => none
  | .rateLimited => some (exponentialBackoff n 15)
  | _ => if n < m - 1 then some (exponentialBackoff n 5) else none

theorem safeGetRun_fail (o : ℕ → FetchOutcome) (m : ℕ) :
    ∀ (k n : ℕ), (∀ i, i < k → ∀ v, o (n + i) ≠ .success v) →
      safeGetRun o m k n =
        (none, (List.range k).filterMap (fun j => sleepOfAttempt o m (n + j))) := by
  intro k
  induction k with
  | zero => intro n _; rfl
  | succ k ih =>
    intro n h
    have h0 : ∀ v, o n ≠ .success v := by
      intro v
      have := h 0 (Nat.succ_pos k) v
      simpa using this
    have htail : ∀ i, i < k → ∀ v, o ((n + 1) + i) ≠ .success v := by
      intro i hi v
      have := h (i + 1) (Nat.succ_lt_succ hi) v
      simpa [Nat.add_assoc, Nat.add_comm 1 i] using this
    have hrange : (List.range (k + 1)).filterMap (fun j => sleepOfAttempt o m (n + j)) =
        (match sleepOfAttempt o m n with
          | none => (List.range k).filterMap (fun j => sleepOfAttempt o m ((n + 1) + j))
          | some s => s :: (List.range k).filterMap (fun j => sleepOfAttempt o m ((n + 1) + j))) := by
      rw [List.range_succ_eq_map, List.filterMap_cons, List.filterMap_map]
      have hfun : (fun j => sleepOfAttempt o m (n + j)) ∘ Nat.succ =
          fun j => sleepOfAttempt o m ((n + 1) + j) := by
        funext j
        show sleepOfAttempt o m (n + Nat.succ j) = sleepOfAttempt o m ((n + 1) + j)
        exact congrArg (sleepOfAttempt o m) (by omega)
      rw [hfun]
      simp only [Nat.add_zero]
      cases sleepOfAttempt o m n <;> rfl
    rw [hrange]
    cases ho : o n with
    | success v => exact absurd ho (h0 v)
    | rateLimited =>
      simp only [safeGetRun, ho, ih (n + 1) htail, sleepOfAttempt]
    | httpError =>
      simp only [safeGetRun, ho, ih (n + 1) htail, sleepOfAttempt]
      split <;> rfl
    | networkError =>
      simp only [safeGetRun, ho, ih (n + 1) htail, sleepOfAttempt]
      split <;> rfl

/-- C6: for every sequence of outbound-call outcomes with no success among
the first `m = max_retries` attempts, `_safe_get` returns `None` (it never
raises: the model is a total function into `Option`), and the back-off
sleeps are exactly, in order: `15 * 2 ^ n` for an HTTP 429 at attempt `n`,
and `5 * 2 ^ n` for any other transient HTTP/network error at attempt `n`
that is followed by a retry. -/
theorem safe_get_retry_spec (o : ℕ → FetchOutcome) (m : ℕ)
    (h : ∀ n, n < m → ∀ v, o n ≠ .success v) :
    safeGet o m = (none, (List.range m).filterMap (fun n => sleepOfAttempt o m n)) := by
  have := safeGetRun_fail o m m 0 (by intro i hi v; simpa using h i hi v)
  simpa [safeGet] using this

/-- Witness for C6: with `max_retries = 3` (the configured default) and
every attempt rate-limited, `_safe_get` returns `None` after sleeping
exactly 15, 30, 60 seconds. -/
theorem safe_get_retry_spec_witness :
    safeGet (fun _ => .rateLimited) maxRetriesDefault = (none, [15, 30, 60]) := by
  have h := safe_get_retry_spec (fun _ => .rateLimited) maxRetriesDefault
    (by intro n _ v h; cases h)
  rw [h]
  rfl

/-- The hardcoded last-resort reference prices of
`_simulate_exchange_prices`, with `100.0` for unknown coins. -/
def fallbackPrice (coin_id : String) : ℚ :=
  if coin_id = "bitcoin" then 68000
  else if coin_id = "ethereum" then 2000
  else if coin_id = "solana" then 85
  else if coin_id = "binancecoin" then 620
  else if coin_id = "ripple" then 7/5
  else 100

/-- Resolution of the base price in `_simulate_exchange_prices`:
`base_price` is the argument passed by the caller; when it is `None` the
method refetches via `get_price_simple` (modelled by `refetched`); a still
falsy (absent or zero) base price falls back to the hardcoded table. -/
def effectiveBasePrice (coin_id : String) (base_price refetched : Option ℚ) : ℚ :=
  match (match base_price with | some b => some b | none => refetched) with
  | none => fallbackPrice coin_id
  | some b => if b = 0 then fallbackPrice coin_id else b

/-- `PriceFetcher._simulate_exchange_prices`: one price per configured
exchange, `round(base_price * (1 + u), 2)` where `u` is the random draw
`random.uniform(-0.015, 0.015)` for that exchange (the random source is
injected as the map `u`). -/
def simulateExchangePrices (coin_id : String) (base_price refetched : Option ℚ)
    (u : String → ℚ) : List (String × ℚ) :=
  exchangesList.map (fun ex =>
    (ex, pyRound (effectiveBasePrice coin_id base_price refetched * (1 + u ex)) 2))

/-- The tail of `PriceFetcher.get_all_exchange_prices` (lines 210-219):
with fewer than 2 exchanges carrying real quotes it falls back to the
synthetic generator, seeded with the base price obtained from
`get_price_simple`; otherwise it returns the real map. -/
def getAllExchangePricesResult (coin_id : String) (realPrices : List (String × ℚ))
    (base_price refetched : Option ℚ) (u : String → ℚ) : List (String × ℚ) :=
  if realPrices.length < 2 then simulateExchangePrices coin_id base_price refetched u
  else realPrices

/-- C7 (amended): whenever fewer than 2 real quotes are available,
`get_all_exchange_prices` returns a synthetic map with exactly one price
per configured exchange, each equal to `base_price * (1 + u)` ROUNDED TO
2 DECIMALS (`round(..., 2)`), with `u` the injected per-exchange random
draw; when no base price is obtainable the base price is the hardcoded
per-coin reference, or `100.0` for coins not in the table. -/
theorem get_all_exchange_prices_fallback (coin_id : String)
    (realPrices : List (String × ℚ)) (base_price refetched : Option ℚ)
    (u : String → ℚ) (h : realPrices.length < 2) :
    getAllExchangePricesResult coin_id realPrices base_price refetched u =
      exchangesList.map (fun ex =>
        (ex, pyRound (effectiveBasePrice coin_id base_price refetched * (1 + u ex)) 2)) ∧
    (getAllExchangePricesResult coin_id realPrices base_price refetched u).map Prod.fst =
      exchangesList ∧
    (base_price = none → refetched = none →
      effectiveBasePrice coin_id base_price refetched = fallbackPrice coin_id) ∧
    (coin_id ∉ ["bitcoin", "ethereum", "solana", "binancecoin", "ripple"] →
      fallbackPrice coin_id = 100) := by
  refine ⟨?_, ?_, ?_, ?_⟩
  · simp [getAllExchangePricesResult, if_pos h, simulateExchangePrices]
  · simp only [getAllExchangePricesResult, if_pos h, simulateExchangePrices, List.map_map]
    have hid : (Prod.fst ∘ fun ex =>
        (ex, pyRound (effectiveBasePrice coin_id base_price refetched * (1 + u ex)) 2)) =
          (id : String → String) := funext fun ex => rfl
    rw [hid, List.map_id]
  · intro h1 h2
    subst h1
    subst h2
    rfl
  · intro hc
    simp only [List.mem_cons, List.not_mem_nil, or_false] at hc
    push_neg at hc
    obtain ⟨h1, h2, h3, h4, h5⟩ := hc
    simp [fallbackPrice, h1, h2, h3, h4, h5]

/-- Witness for C7 (amended): no real quotes, total API outage, constant
random draw `0.001` — the synthetic map carries one rounded price per
configured exchange, derived from the hardcoded bitcoin price 68000. -/
theorem get_all_exchange_prices_fallback_witness :
    getAllExchangePricesResult "bitcoin" [] none none (fun _ => 1/1000) =
      [("binance", 68068), ("coinbase", 68068), ("kraken", 68068),
       ("kucoin", 68068), ("bybit", 68068)] := by
  have h := get_all_exchange_prices_fallback "bitcoin" [] none none (fun _ => 1/1000)
    (by simp)
  rw [h.1]
  norm_num [exchangesList, effectiveBasePrice, fallbackPrice, pyRound, roundHalfEven]

/-- Counterexample to C7 as stated: with base price 68000 (the bitcoin
fallback) and draw `u = 10 ^ (-6)`, the emitted synthetic price is
`round(68000.068, 2) = 68000.07`, which differs from the exact
`base_price * (1 + u) = 68000.068` asserted by the claim. -/
theorem get_all_exchange_prices_fallback_cex :
    simulateExchangePrices "bitcoin" none none (fun _ => 1/1000000) =
      [("binance", 6800007/100), ("coinbase", 6800007/100),
       ("kraken", 6800007/100), ("kucoin", 6800007/100), ("bybit", 6800007/100)] ∧
    (6800007/100 : ℚ) ≠ 68000 * (1 + 1/1000000) := by
  constructor
  · norm_num [simulateExchangePrices, exchangesList, effectiveBasePrice, fallbackPrice,
      pyRound, roundHalfEven]
  · norm_num

end AntiGravity
